import Mathlib

/-!
Verification development for `components/layout/sequential.rs`: the sequential
layout traversals of a browser layout engine (reflow, float-placement
speculation, overflow propagation, display-list building, and border-box
iteration over the flow tree).

The flow tree, the restyle-damage bitset, and each traversal are embedded
shallowly below, following the Rust source.  Operations whose definitions live
outside the embedded file (the `AssignISizes`/`AssignBSizes` traversal
callbacks, the `SpeculatedFloatPlacement` arithmetic, the per-flow overflow
computation, and the display-item emission of `BuildDisplayList`) are taken as
parameters, so every theorem holds for all implementations of those callbacks.
-/

namespace Layout

/-! ## Restyle damage

`ServoRestyleDamage` is a bitflags set; `sequential.rs` uses three of its bits:
`REFLOW`, `REFLOW_OUT_OF_FLOW` and `STORE_OVERFLOW`.  We model the bitset as a
record of those three booleans with the bitflags operations used by the code
(`insert`, `contains`, `intersects`, `remove`). -/

structure RestyleDamage where
  reflow : Bool
  reflow_out_of_flow : Bool
  store_overflow : Bool
deriving DecidableEq, Repr

namespace RestyleDamage

/-- Bitwise union of two damage sets. -/
def union (a b : RestyleDamage) : RestyleDamage :=
  ⟨a.reflow || b.reflow, a.reflow_out_of_flow || b.reflow_out_of_flow,
    a.store_overflow || b.store_overflow⟩

/-- `bitflags::insert`: add all bits of `other`. -/
def insert (d other : RestyleDamage) : RestyleDamage := d.union other

/-- `bitflags::contains`: all bits of `other` are present in `d`. -/
def contains (d other : RestyleDamage) : Bool :=
  (!other.reflow || d.reflow) && (!other.reflow_out_of_flow || d.reflow_out_of_flow) &&
    (!other.store_overflow || d.store_overflow)

/-- `bitflags::intersects`: some bit of `other` is present in `d`. -/
def intersects (d other : RestyleDamage) : Bool :=
  (d.reflow && other.reflow) || (d.reflow_out_of_flow && other.reflow_out_of_flow) ||
    (d.store_overflow && other.store_overflow)

/-- `bitflags::remove`: clear all bits of `other`. -/
def remove (d other : RestyleDamage) : RestyleDamage :=
  ⟨d.reflow && !other.reflow, d.reflow_out_of_flow && !other.reflow_out_of_flow,
    d.store_overflow && !other.store_overflow⟩

end RestyleDamage

namespace ServoRestyleDamage

/-- The `REFLOW` bit. -/
def REFLOW : RestyleDamage := ⟨true, false, false⟩

/-- The `REFLOW_OUT_OF_FLOW` bit. -/
def REFLOW_OUT_OF_FLOW : RestyleDamage := ⟨false, true, false⟩

/-- The `STORE_OVERFLOW` bit. -/
def STORE_OVERFLOW : RestyleDamage := ⟨false, false, true⟩

end ServoRestyleDamage

/-! ## Geometry

App units (`Au`) are integers (1/60 of a px); layout points (`webrender`'s
`LayoutPoint`, `f32` px) are modelled as rationals. -/

/-- A point in app units (`Point2D<Au>` / `Vector2D<Au>`). -/
structure AuPoint where
  x : Int
  y : Int
deriving DecidableEq, Repr

instance : Add AuPoint := ⟨fun a b => ⟨a.x + b.x, a.y + b.y⟩⟩

/-- `Point2D::zero()`. -/
def AuPoint.zero : AuPoint := ⟨0, 0⟩

/-- A size in app units (`Size2D<Au>`). -/
structure AuSize where
  width : Int
  height : Int
deriving DecidableEq, Repr

/-- A rectangle in app units (`Rect<Au>`). -/
structure AuRect where
  origin : AuPoint
  size : AuSize
deriving DecidableEq, Repr

/-- A point in px (`LayoutPoint`, `f32` modelled as `ℚ`). -/
structure QPoint where
  x : ℚ
  y : ℚ
deriving DecidableEq, Repr

/-- `LayoutPoint::zero()`. -/
def QPoint.zero : QPoint := ⟨0, 0⟩

/-- A rectangle in px (`LayoutRect`). -/
structure QRect where
  x : ℚ
  y : ℚ
  width : ℚ
  height : ℚ
deriving DecidableEq, Repr

/-- `Au::from_f32_px`: px to app units (×60, rounded). -/
def Au.from_f32_px (px : ℚ) : Int := round (px * 60)

/-- `Au::to_f32_px`: app units to px (/60). -/
def Au.to_f32_px (au : Int) : ℚ := (au : ℚ) / 60

/-- `Rect<Au>::to_layout()`: convert a rectangle to px. -/
def AuRect.to_layout (r : AuRect) : QRect :=
  ⟨Au.to_f32_px r.origin.x, Au.to_f32_px r.origin.y,
    Au.to_f32_px r.size.width, Au.to_f32_px r.size.height⟩

/-! ## Transforms

`euclid::Transform3D` restricted to its action on 2D points.  Only the matrix
entries read by `transform_point2d` are kept (row-major; the `x`/`y`/`w` rows
and the translation row). -/

/-- The 2D-relevant entries of a `Transform3D<f32>`, over `ℚ`. -/
structure Transform3DModel where
  m11 : ℚ
  m12 : ℚ
  m14 : ℚ
  m21 : ℚ
  m22 : ℚ
  m24 : ℚ
  m41 : ℚ
  m42 : ℚ
  m44 : ℚ
deriving DecidableEq, Repr

/-- `euclid::Transform3D::transform_point2d`: apply the matrix to a 2D point
and divide through by the homogeneous coordinate; `none` when the homogeneous
coordinate is not positive. -/
def Transform3DModel.transform_point2d (m : Transform3DModel) (p : QPoint) : Option QPoint :=
  let w : ℚ := p.x * m.m14 + p.y * m.m24 + m.m44
  if 0 < w then
    some ⟨(p.x * m.m11 + p.y * m.m21 + m.m41) / w, (p.x * m.m12 + p.y * m.m22 + m.m42) / w⟩
  else none

/-! ## Flows

A flow node owns a shared mutable base record (`BaseFlow`) and, when the flow
is a block flow, a block payload carrying its `Fragment`.  Children are the
ordered child flows (`base.children` in the source, lifted next to the base
here).  Each node additionally carries an identity tag `id` — instrumentation
standing for the node's identity, used only to speak about traversal traces. -/

/-- The flag bits of `FlowFlags` that `sequential.rs` reads. -/
structure FlowFlags where
  is_absolutely_positioned : Bool
deriving DecidableEq, Repr

/-- `SpeculatedFloatPlacement`.  Modelled from the spec: "a pair (inline extent
occupied by floats on the left, on the right)"; its arithmetic
(`crate::floats`) is not part of the embedded file and is taken as parameters
where used. -/
structure SpeculatedFloatPlacement where
  left : Int
  right : Int
deriving DecidableEq, Repr

/-- The fields of `BaseFlow` read or written by `sequential.rs`. -/
structure BaseFlow where
  restyle_damage : RestyleDamage
  flags : FlowFlags
  stacking_relative_position : AuPoint
  speculated_float_placement_in : SpeculatedFloatPlacement
  speculated_float_placement_out : SpeculatedFloatPlacement
  overflow : AuRect
deriving DecidableEq, Repr

/-- The fields of a block flow's `Fragment` read by `sequential.rs`.
`margin_inline_start` stands for `margin.inline_start`;
`establishes_stacking_context` for the method of the same name; and
`transform_matrix` for `Fragment::transform_matrix(&relative_position)`, a
method (outside the embedded file) computing the active 2D transform, modelled
as stored per-fragment data. -/
structure Fragment where
  node : Nat
  margin_inline_start : Int
  establishes_stacking_context : Bool
  transform_matrix : Option Transform3DModel
deriving DecidableEq, Repr

/-- The block-flow payload reached through `Flow::as_block`. -/
structure BlockFlow where
  fragment : Fragment
deriving DecidableEq, Repr

/-- A flow-tree node: identity tag, base record, optional block payload,
ordered children. -/
inductive Flow where
  | mk (id : Nat) (base : BaseFlow) (block : Option BlockFlow) (children : List Flow)
deriving Repr

/-- The identity tag of a flow. -/
def Flow.idOf : Flow → Nat
  | .mk i _ _ _ => i

/-- `Flow::base` / `Flow::mut_base`. -/
def Flow.baseOf : Flow → BaseFlow
  | .mk _ b _ _ => b

/-- The block payload, when this is a block flow. -/
def Flow.blockOf : Flow → Option BlockFlow
  | .mk _ _ bl _ => bl

/-- The ordered children (`base.children`). -/
def Flow.childrenOf : Flow → List Flow
  | .mk _ _ _ cs => cs

/-- `Flow::as_block`.  The source downcast panics on a non-block flow; the
panic is modelled by `none`. -/
def Flow.as_block (f : Flow) : Option BlockFlow := f.blockOf

/-- `Flow::is_block_flow`. -/
def Flow.is_block_flow (f : Flow) : Bool := f.blockOf.isSome

/-- Replace the base record (a write through `mut_base`). -/
def Flow.withBase (f : Flow) (b : BaseFlow) : Flow :=
  match f with
  | .mk i _ bl cs => .mk i b bl cs

/-- Replace the children list. -/
def Flow.withChildren (f : Flow) (cs : List Flow) : Flow :=
  match f with
  | .mk i b bl _ => .mk i b bl cs

mutual

/-- The node itself followed by all of its proper descendants, in depth-first
order. -/
def Flow.subflows : Flow → List Flow
  | .mk i b bl cs => .mk i b bl cs :: subflowsList cs

/-- All subflows of the members of a list of flows. -/
def subflowsList : List Flow → List Flow
  | [] => []
  | c :: cs => c.subflows ++ subflowsList cs

end

/-- The identity tags of all nodes of the subtree. -/
def Flow.ids (f : Flow) : List Nat := f.subflows.map Flow.idOf

/-! ## The damage-gated reflow driver (`reflow` and its inner `doit`)

`AssignISizes` and `AssignBSizes` are traversal objects defined in
`crate::traversal`, outside the embedded file; each exposes `should_process`
and `process`.  They are modelled as parameters acting on the node's base
record (their `process` resolves the node's own sizes; it does not restructure
the children list).

The traversal is instrumented: each visit records, per node, the evaluation of
the inline-size check (with the damage it read and its outcome) and of the
block-size check, in execution order.  The events are the formal counterpart
of "inline-size assignment" and "block-size assignment" being performed. -/

/-- A size-assignment traversal object (`AssignISizes` / `AssignBSizes`). -/
structure SizeTraversal where
  should_process : BaseFlow → Bool
  process : BaseFlow → BaseFlow

/-- `crate::incremental::RelayoutMode`. -/
inductive RelayoutMode where
  | Force
  | Incremental
deriving DecidableEq, Repr

/-- One recorded step of the fused main traversal: the evaluation of a node's
inline-size-assignment check or block-size-assignment check.  `damage` is the
node's restyle damage at the moment the check was evaluated and `processed`
whether the assignment was then performed. -/
inductive ReflowEvent where
  | inline_size_check (id : Nat) (damage : RestyleDamage) (processed : Bool)
  | block_size_check (id : Nat) (damage : RestyleDamage) (processed : Bool)
deriving DecidableEq, Repr

/-- The node a reflow event belongs to. -/
def ReflowEvent.eid : ReflowEvent → Nat
  | .inline_size_check i _ _ => i
  | .block_size_check i _ _ => i

mutual

/-- `reflow::doit`, returning the updated subtree together with the trace of
check events in execution order.  Mirrors the source: (1) on `Force`, insert
`REFLOW_OUT_OF_FLOW | REFLOW` into the node's damage; (2) evaluate the
inline-size check and process if needed; (3) recurse into the children in
order; (4) evaluate the block-size check and process if needed. -/
def doit (assign_inline_sizes assign_block_sizes : SizeTraversal)
    (relayout_mode : RelayoutMode) : Flow → Flow × List ReflowEvent
  | .mk i base0 block children =>
    let base1 := if relayout_mode = RelayoutMode.Force then
        { base0 with
          restyle_damage := base0.restyle_damage.insert
            (ServoRestyleDamage.REFLOW_OUT_OF_FLOW.union ServoRestyleDamage.REFLOW) }
      else base0
    let pI := assign_inline_sizes.should_process base1
    let eI := ReflowEvent.inline_size_check i base1.restyle_damage pI
    let base2 := if pI then assign_inline_sizes.process base1 else base1
    let r := doitList assign_inline_sizes assign_block_sizes relayout_mode children
    let pB := assign_block_sizes.should_process base2
    let eB := ReflowEvent.block_size_check i base2.restyle_damage pB
    let base3 := if pB then assign_block_sizes.process base2 else base2
    (.mk i base3 block r.1, eI :: (r.2 ++ [eB]))

/-- The child loop of `reflow::doit`: each child is traversed independently,
in order. -/
def doitList (assign_inline_sizes assign_block_sizes : SizeTraversal)
    (relayout_mode : RelayoutMode) : List Flow → List Flow × List ReflowEvent
  | [] => ([], [])
  | k :: ks =>
    let rk := doit assign_inline_sizes assign_block_sizes relayout_mode k
    let rks := doitList assign_inline_sizes assign_block_sizes relayout_mode ks
    (rk.1 :: rks.1, rk.2 ++ rks.2)

end

/-- The event trace of the fused main traversal. -/
def reflowTrace (assign_inline_sizes assign_block_sizes : SizeTraversal)
    (relayout_mode : RelayoutMode) (f : Flow) : List ReflowEvent :=
  (doit assign_inline_sizes assign_block_sizes relayout_mode f).2

/-- `reflow`: the optional separate bubble pass (a `BubbleISizes` postorder
traversal, modelled as a parameter, enabled by the
`bubble_inline_sizes_separately` debug switch) followed by the fused main
traversal. -/
def reflow (bubble_inline_sizes_separately : Bool) (bubble_inline_sizes : Flow → Flow)
    (assign_inline_sizes assign_block_sizes : SizeTraversal)
    (root : Flow) (relayout_mode : RelayoutMode) : Flow × List ReflowEvent :=
  doit assign_inline_sizes assign_block_sizes relayout_mode
    (if bubble_inline_sizes_separately then bubble_inline_sizes root else root)

/-! ## Ordering of events in a trace -/

/-- Every element of `t` satisfying `P` occurs strictly before every element
satisfying `Q`. -/
@[reducible] def ListBefore {α : Type} (P Q : α → Bool) (t : List α) : Prop :=
  ∀ (i j : Nat) (a b : α),
    t[i]? = some a → t[j]? = some b → P a = true → Q b = true → i < j

theorem listBefore_head {α : Type} {P Q : α → Bool} {e : α} {rest : List α}
    (hP : ∀ x ∈ rest, P x = false) (hQ : Q e = false) : ListBefore P Q (e :: rest) := by
  intro i j a b hi hj hPa hQb
  match j, hj with
  | 0, hj =>
    rw [List.getElem?_cons_zero] at hj
    cases hj
    rw [hQ] at hQb
    cases hQb
  | j' + 1, hj =>
    match i, hi with
    | 0, hi => exact Nat.succ_pos j'
    | i' + 1, hi =>
      rw [List.getElem?_cons_succ] at hi
      rw [hP a (List.getElem?_mem hi)] at hPa
      cases hPa

theorem listBefore_last {α : Type} {P Q : α → Bool} {init : List α} {e : α}
    (hQ : ∀ x ∈ init, Q x = false) (hP : P e = false) : ListBefore P Q (init ++ [e]) := by
  intro i j a b hi hj hPa hQb
  have hjlen : j < init.length + 1 := by
    have := (List.getElem?_eq_some_iff.mp hj).1
    simpa using this
  have hje : j = init.length := by
    rcases Nat.lt_or_ge j init.length with hlt | hge
    · rw [List.getElem?_append_left hlt] at hj
      rw [hQ b (List.getElem?_mem hj)] at hQb
      cases hQb
    · omega
  have hilen : i < init.length + 1 := by
    have := (List.getElem?_eq_some_iff.mp hi).1
    simpa using this
  rcases Nat.lt_or_ge i init.length with hlt | hge
  · omega
  · have : i = init.length := by omega
    subst this
    rw [List.getElem?_concat_length] at hi
    cases hi
    rw [hP] at hPa
    cases hPa

theorem listBefore_append_middle {α : Type} {P Q : α → Bool} {pre mid post : List α}
    (hpre : ∀ x ∈ pre, P x = false ∧ Q x = false)
    (hpost : ∀ x ∈ post, P x = false ∧ Q x = false)
    (h : ListBefore P Q mid) : ListBefore P Q (pre ++ (mid ++ post)) := by
  intro i j a b hi hj hPa hQb
  have localize : ∀ k x, (pre ++ (mid ++ post))[k]? = some x → P x = true ∨ Q x = true →
      pre.length ≤ k ∧ k - pre.length < mid.length ∧ mid[k - pre.length]? = some x := by
    intro k x hk hx
    rcases Nat.lt_or_ge k pre.length with hlt | hge
    · rw [List.getElem?_append_left hlt] at hk
      rcases hpre x (List.getElem?_mem hk) with ⟨h1, h2⟩
      rcases hx with hx | hx
      · rw [h1] at hx; cases hx
      · rw [h2] at hx; cases hx
    · rw [List.getElem?_append_right hge] at hk
      rcases Nat.lt_or_ge (k - pre.length) mid.length with hlt2 | hge2
      · rw [List.getElem?_append_left hlt2] at hk
        exact ⟨hge, hlt2, hk⟩
      · rw [List.getElem?_append_right hge2] at hk
        rcases hpost x (List.getElem?_mem hk) with ⟨h1, h2⟩
        rcases hx with hx | hx
        · rw [h1] at hx; cases hx
        · rw [h2] at hx; cases hx
  rcases localize i a hi (Or.inl hPa) with ⟨hi1, hi2, hi3⟩
  rcases localize j b hj (Or.inr hQb) with ⟨hj1, hj2, hj3⟩
  have := h _ _ _ _ hi3 hj3 hPa hQb
  omega

/-! ## Subtree and identity-tag lemmas -/

theorem subflows_mk (i : Nat) (b : BaseFlow) (bl : Option BlockFlow) (cs : List Flow) :
    (Flow.mk i b bl cs).subflows = Flow.mk i b bl cs :: subflowsList cs := by
  simp [Flow.subflows]

theorem subflowsList_eq_flatten (cs : List Flow) :
    subflowsList cs = (cs.map Flow.subflows).flatten := by
  induction cs with
  | nil => simp [subflowsList]
  | cons c cs ih => simp [subflowsList, ih]

theorem mem_subflowsList {x : Flow} {cs : List Flow} :
    x ∈ subflowsList cs ↔ ∃ k ∈ cs, x ∈ k.subflows := by
  rw [subflowsList_eq_flatten]
  simp

theorem self_mem_subflows (f : Flow) : f ∈ f.subflows := by
  cases f with
  | mk i b bl cs => rw [subflows_mk]; exact List.mem_cons_self _ _

theorem ids_mk (i : Nat) (b : BaseFlow) (bl : Option BlockFlow) (cs : List Flow) :
    (Flow.mk i b bl cs).ids = i :: (cs.map Flow.ids).flatten := by
  rw [Flow.ids, subflows_mk, subflowsList_eq_flatten]
  simp only [List.map_cons, List.map_flatten, List.map_map, Function.comp_def]
  rw [show Flow.ids = fun x => List.map Flow.idOf x.subflows from rfl]
  simp [Flow.idOf]

theorem idOf_mem_ids {x f : Flow} (h : x ∈ f.subflows) : x.idOf ∈ f.ids :=
  List.mem_map_of_mem _ h

theorem mem_ids_of_child {k : Flow} {cs : List Flow} {x : Nat}
    (hk : k ∈ cs) (hx : x ∈ k.ids) : x ∈ (cs.map Flow.ids).flatten := by
  rw [List.mem_flatten]
  exact ⟨k.ids, List.mem_map_of_mem _ hk, hx⟩

/-- Descendant-of is transitive through `subflows`. -/
theorem subflows_trans :
    ∀ (z : Flow) {x y : Flow}, x ∈ y.subflows → y ∈ z.subflows → x ∈ z.subflows
  | .mk i b bl cs, x, y, hxy, hyz => by
    rw [subflows_mk] at hyz ⊢
    rcases List.mem_cons.mp hyz with h | h
    · subst h
      exact hxy
    · rcases mem_subflowsList.mp h with ⟨k, hk, hyk⟩
      have := subflows_trans k hxy hyk
      exact List.mem_cons_of_mem _ (mem_subflowsList.mpr ⟨k, hk, this⟩)
termination_by z => sizeOf z
decreasing_by
  have h1 := List.sizeOf_lt_of_mem hk
  simp only [Flow.mk.sizeOf_spec]
  omega

/-- A member of the children's subflow list is a subflow of the node. -/
theorem mem_subflows_of_mem_children_subflows {f x : Flow}
    (h : x ∈ subflowsList f.childrenOf) : x ∈ f.subflows := by
  cases f with
  | mk i b bl cs =>
    rw [subflows_mk]
    exact List.mem_cons_of_mem _ h

/-- Decomposition of a `Nodup` hypothesis on the identity tags of a tree. -/
theorem nodup_ids_decomp {i : Nat} {b : BaseFlow} {bl : Option BlockFlow} {cs : List Flow}
    (h : (Flow.mk i b bl cs).ids.Nodup) :
    i ∉ (cs.map Flow.ids).flatten ∧ (∀ k ∈ cs, k.ids.Nodup) ∧
      cs.Pairwise (fun u v => u.ids.Disjoint v.ids) := by
  rw [ids_mk] at h
  rcases List.nodup_cons.mp h with ⟨hhead, htail⟩
  rcases List.nodup_flatten.mp htail with ⟨hall, hpw⟩
  refine ⟨hhead, ?_, ?_⟩
  · intro k hk
    exact hall k.ids (List.mem_map_of_mem _ hk)
  · exact (List.pairwise_map).mp hpw

/-- With pairwise-disjoint identity tags, a tag occurring in the tags of two
children forces the children to coincide. -/
theorem child_eq_of_shared_id {cs : List Flow} {k c : Flow} {x : Nat}
    (hpw : cs.Pairwise (fun u v => u.ids.Disjoint v.ids))
    (hk : k ∈ cs) (hc : c ∈ cs) (hxk : x ∈ k.ids) (hxc : x ∈ c.ids) : k = c := by
  by_contra hne
  have hsym : Symmetric (fun u v : Flow => u.ids.Disjoint v.ids) := by
    intro u v h
    exact List.Disjoint.symm h
  exact (hpw.forall hsym) hk hc hne hxk hxc

/-! ## Shape of the reflow trace -/

/-- The node's base after step (1) of `doit` (forced damage insertion). -/
def forced_base (relayout_mode : RelayoutMode) (b : BaseFlow) : BaseFlow :=
  if relayout_mode = RelayoutMode.Force then
    { b with
      restyle_damage := b.restyle_damage.insert
        (ServoRestyleDamage.REFLOW_OUT_OF_FLOW.union ServoRestyleDamage.REFLOW) }
  else b

/-- The node's base after step (2) of `doit` (inline-size assignment). -/
def after_inline (assign_inline_sizes : SizeTraversal) (relayout_mode : RelayoutMode)
    (b : BaseFlow) : BaseFlow :=
  let b1 := forced_base relayout_mode b
  if assign_inline_sizes.should_process b1 then assign_inline_sizes.process b1 else b1

theorem doitList_snd (isz bsz : SizeTraversal) (mode : RelayoutMode) (cs : List Flow) :
    (doitList isz bsz mode cs).2 = (cs.map fun k => (doit isz bsz mode k).2).flatten := by
  induction cs with
  | nil => simp [doitList]
  | cons c cs ih => simp [doitList, ih]

theorem reflowTrace_mk_eq (isz bsz : SizeTraversal) (mode : RelayoutMode)
    (i : Nat) (b : BaseFlow) (bl : Option BlockFlow) (cs : List Flow) :
    reflowTrace isz bsz mode (.mk i b bl cs) =
      ReflowEvent.inline_size_check i (forced_base mode b).restyle_damage
          (isz.should_process (forced_base mode b)) ::
        ((cs.map (reflowTrace isz bsz mode)).flatten ++
          [ReflowEvent.block_size_check i (after_inline isz mode b).restyle_damage
            (bsz.should_process (after_inline isz mode b))]) := by
  rw [reflowTrace, doit]
  simp only [doitList_snd]
  rw [show reflowTrace isz bsz mode = fun k => (doit isz bsz mode k).2 from rfl]
  simp [forced_base, after_inline]

/-- Every event of the trace of a subtree belongs to a node of that subtree. -/
theorem reflowTrace_eid_mem (isz bsz : SizeTraversal) (mode : RelayoutMode) :
    ∀ (f : Flow), ∀ e ∈ reflowTrace isz bsz mode f, e.eid ∈ f.ids
  | .mk i b bl cs => by
    intro e he
    rw [reflowTrace_mk_eq] at he
    rw [ids_mk]
    rcases List.mem_cons.mp he with h | h
    · subst h
      simp [ReflowEvent.eid]
    · rcases List.mem_append.mp h with h | h
      · rcases List.mem_flatten.mp h with ⟨t, ht, het⟩
        rcases List.mem_map.mp ht with ⟨k, hk, rfl⟩
        have hrec := reflowTrace_eid_mem isz bsz mode k e het
        exact List.mem_cons_of_mem _ (mem_ids_of_child hk hrec)
      · rcases List.mem_singleton.mp h with rfl
        simp [ReflowEvent.eid]
termination_by f => sizeOf f
decreasing_by
  have h1 := List.sizeOf_lt_of_mem hk
  simp only [Flow.mk.sizeOf_spec]
  omega

/-! ## Event predicates: performed size assignments -/

/-- `e` is the performed inline-size assignment of node `n`. -/
def ReflowEvent.isInlineAssign (e : ReflowEvent) (n : Nat) : Bool :=
  match e with
  | .inline_size_check i _ pr => i == n && pr
  | .block_size_check _ _ _ => false

/-- `e` is the performed block-size assignment of node `n`. -/
def ReflowEvent.isBlockAssign (e : ReflowEvent) (n : Nat) : Bool :=
  match e with
  | .inline_size_check _ _ _ => false
  | .block_size_check i _ pr => i == n && pr

theorem assign_false_of_eid_ne {x : ReflowEvent} {n : Nat} (h : x.eid ≠ n) :
    x.isInlineAssign n = false ∧ x.isBlockAssign n = false := by
  cases x with
  | inline_size_check i d pr =>
    simp [ReflowEvent.eid] at h
    simp [ReflowEvent.isInlineAssign, ReflowEvent.isBlockAssign, h]
  | block_size_check i d pr =>
    simp [ReflowEvent.eid] at h
    simp [ReflowEvent.isInlineAssign, ReflowEvent.isBlockAssign, h]

theorem eid_eq_of_isInlineAssign {x : ReflowEvent} {n : Nat}
    (h : x.isInlineAssign n = true) : x.eid = n := by
  cases x with
  | inline_size_check i d pr =>
    simp [ReflowEvent.isInlineAssign] at h
    simp [ReflowEvent.eid, h.1]
  | block_size_check i d pr => simp [ReflowEvent.isInlineAssign] at h

theorem eid_eq_of_isBlockAssign {x : ReflowEvent} {n : Nat}
    (h : x.isBlockAssign n = true) : x.eid = n := by
  cases x with
  | inline_size_check i d pr => simp [ReflowEvent.isBlockAssign] at h
  | block_size_check i d pr =>
    simp [ReflowEvent.isBlockAssign] at h
    simp [ReflowEvent.eid, h.1]

/-- Core ordering invariant of the fused main traversal: within the trace of
`doit`, an ancestor's performed inline-size assignment precedes every
descendant's, and every descendant's performed block-size assignment precedes
the ancestor's. -/
theorem reflow_order_aux (isz bsz : SizeTraversal) (mode : RelayoutMode) :
    ∀ (f : Flow), f.ids.Nodup →
      ∀ p ∈ f.subflows, ∀ c ∈ subflowsList p.childrenOf,
        ListBefore (fun e => e.isInlineAssign p.idOf) (fun e => e.isInlineAssign c.idOf)
            (reflowTrace isz bsz mode f) ∧
          ListBefore (fun e => e.isBlockAssign c.idOf) (fun e => e.isBlockAssign p.idOf)
            (reflowTrace isz bsz mode f)
  | .mk i b bl cs => by
    intro hnd p hp c hc
    obtain ⟨hhead, hall, hpw⟩ := nodup_ids_decomp hnd
    rw [subflows_mk] at hp
    rcases List.mem_cons.mp hp with hpf | hpf
    · subst hpf
      have hc' : c ∈ subflowsList cs := by simpa [Flow.childrenOf] using hc
      rcases mem_subflowsList.mp hc' with ⟨k, hk, hck⟩
      have hck_id : c.idOf ∈ k.ids := idOf_mem_ids hck
      have hcid_mem : c.idOf ∈ (cs.map Flow.ids).flatten := mem_ids_of_child hk hck_id
      have hcne : i ≠ c.idOf := fun h => hhead (h ▸ hcid_mem)
      have hflat_ne : ∀ x ∈ ((cs.map (reflowTrace isz bsz mode)).flatten),
          x.eid ≠ (Flow.mk i b bl cs).idOf := by
        intro x hx
        rcases List.mem_flatten.mp hx with ⟨t, ht, hxt⟩
        rcases List.mem_map.mp ht with ⟨k1, hk1, rfl⟩
        have hmem := reflowTrace_eid_mem isz bsz mode k1 x hxt
        intro hcontra
        rw [show (Flow.mk i b bl cs).idOf = i from rfl] at hcontra
        exact hhead (hcontra ▸ mem_ids_of_child hk1 hmem)
      rw [reflowTrace_mk_eq]
      constructor
      · apply listBefore_head
        · intro x hx
          rcases List.mem_append.mp hx with hx | hx
          · exact (assign_false_of_eid_ne (hflat_ne x hx)).1
          · rcases List.mem_singleton.mp hx with rfl
            simp [ReflowEvent.isInlineAssign]
        · simp [ReflowEvent.isInlineAssign, hcne]
      · rw [← List.cons_append]
        apply listBefore_last
        · intro x hx
          rcases List.mem_cons.mp hx with rfl | hx
          · simp [ReflowEvent.isBlockAssign]
          · exact (assign_false_of_eid_ne (hflat_ne x hx)).2
        · simp [ReflowEvent.isBlockAssign, hcne]
    · rcases mem_subflowsList.mp hpf with ⟨k, hk, hpk⟩
      have hcp : c ∈ p.subflows := mem_subflows_of_mem_children_subflows hc
      have hckmem : c ∈ k.subflows := subflows_trans k hcp hpk
      have hpid : p.idOf ∈ k.ids := idOf_mem_ids hpk
      have hcid : c.idOf ∈ k.ids := idOf_mem_ids hckmem
      have hknd : k.ids.Nodup := hall k hk
      have IH := reflow_order_aux isz bsz mode k hknd p hpk c hc
      have toFalse : ∀ (x : ReflowEvent), x.eid ∉ k.ids →
          (x.isInlineAssign p.idOf = false ∧ x.isInlineAssign c.idOf = false) ∧
            (x.isBlockAssign c.idOf = false ∧ x.isBlockAssign p.idOf = false) := by
        intro x hx
        have h1 : x.eid ≠ p.idOf := fun h => hx (h ▸ hpid)
        have h2 : x.eid ≠ c.idOf := fun h => hx (h ▸ hcid)
        exact ⟨⟨(assign_false_of_eid_ne h1).1, (assign_false_of_eid_ne h2).1⟩,
          ⟨(assign_false_of_eid_ne h2).2, (assign_false_of_eid_ne h1).2⟩⟩
      rcases List.append_of_mem hk with ⟨l1, l2, rfl⟩
      rcases List.pairwise_append.mp hpw with ⟨pw1, pw2, hx12⟩
      have hk2 := (List.pairwise_cons.mp pw2).1
      have hshape : reflowTrace isz bsz mode (.mk i b bl (l1 ++ k :: l2)) =
          (ReflowEvent.inline_size_check i (forced_base mode b).restyle_damage
              (isz.should_process (forced_base mode b)) ::
            (l1.map (reflowTrace isz bsz mode)).flatten) ++
          (reflowTrace isz bsz mode k ++
            ((l2.map (reflowTrace isz bsz mode)).flatten ++
              [ReflowEvent.block_size_check i (after_inline isz mode b).restyle_damage
                (bsz.should_process (after_inline isz mode b))])) := by
        rw [reflowTrace_mk_eq]
        simp [List.map_append, List.flatten_append, List.append_assoc]
      have hi_not : i ∉ k.ids := by
        intro h
        exact hhead (mem_ids_of_child hk h)
      have hpre : ∀ x ∈ (ReflowEvent.inline_size_check i (forced_base mode b).restyle_damage
          (isz.should_process (forced_base mode b)) ::
            (l1.map (reflowTrace isz bsz mode)).flatten), x.eid ∉ k.ids := by
        intro x hx
        rcases List.mem_cons.mp hx with rfl | hx
        · simpa [ReflowEvent.eid] using hi_not
        · rcases List.mem_flatten.mp hx with ⟨t, ht, hxt⟩
          rcases List.mem_map.mp ht with ⟨k1, hk1, rfl⟩
          have hmem := reflowTrace_eid_mem isz bsz mode k1 x hxt
          have hdisj : k1.ids.Disjoint k.ids := hx12 k1 hk1 k (List.mem_cons_self _ _)
          exact fun hcontra => hdisj hmem hcontra
      have hpost : ∀ x ∈ ((l2.map (reflowTrace isz bsz mode)).flatten ++
          [ReflowEvent.block_size_check i (after_inline isz mode b).restyle_damage
            (bsz.should_process (after_inline isz mode b))]), x.eid ∉ k.ids := by
        intro x hx
        rcases List.mem_append.mp hx with hx | hx
        · rcases List.mem_flatten.mp hx with ⟨t, ht, hxt⟩
          rcases List.mem_map.mp ht with ⟨k2, hk2', rfl⟩
          have hmem := reflowTrace_eid_mem isz bsz mode k2 x hxt
          have hdisj : k.ids.Disjoint k2.ids := hk2 k2 hk2'
          exact fun hcontra => hdisj hcontra hmem
        · rcases List.mem_singleton.mp hx with rfl
          simpa [ReflowEvent.eid] using hi_not
      rw [hshape]
      exact ⟨listBefore_append_middle (fun x hx => ⟨(toFalse x (hpre x hx)).1.1, (toFalse x (hpre x hx)).1.2⟩)
          (fun x hx => ⟨(toFalse x (hpost x hx)).1.1, (toFalse x (hpost x hx)).1.2⟩) IH.1,
        listBefore_append_middle (fun x hx => ⟨(toFalse x (hpre x hx)).2.1, (toFalse x (hpre x hx)).2.2⟩)
          (fun x hx => ⟨(toFalse x (hpost x hx)).2.1, (toFalse x (hpost x hx)).2.2⟩) IH.2⟩
termination_by f => sizeOf f
decreasing_by
  have h1 := List.sizeOf_lt_of_mem hk
  simp only [Flow.mk.sizeOf_spec]
  omega

/-- In `Force` mode every node's inline-size check reads the node's damage
with `REFLOW_OUT_OF_FLOW | REFLOW` freshly inserted. -/
theorem forced_trace_inline_damage (isz bsz : SizeTraversal) :
    ∀ (f : Flow), ∀ n ∈ f.subflows, ∃ pr,
      ReflowEvent.inline_size_check n.idOf
          (n.baseOf.restyle_damage.insert
            (ServoRestyleDamage.REFLOW_OUT_OF_FLOW.union ServoRestyleDamage.REFLOW)) pr
        ∈ reflowTrace isz bsz RelayoutMode.Force f
  | .mk i b bl cs => by
    intro n hn
    rw [subflows_mk] at hn
    rcases List.mem_cons.mp hn with rfl | hn
    · refine ⟨isz.should_process (forced_base RelayoutMode.Force b), ?_⟩
      have hfd : (forced_base RelayoutMode.Force b).restyle_damage =
          b.restyle_damage.insert
            (ServoRestyleDamage.REFLOW_OUT_OF_FLOW.union ServoRestyleDamage.REFLOW) := by
        simp [forced_base]
      rw [reflowTrace_mk_eq,
        show (Flow.mk i b bl cs).idOf = i from rfl,
        show (Flow.mk i b bl cs).baseOf = b from rfl, ← hfd]
      exact List.mem_cons_self _ _
    · rcases mem_subflowsList.mp hn with ⟨k, hk, hnk⟩
      rcases forced_trace_inline_damage isz bsz k n hnk with ⟨pr, hpr⟩
      refine ⟨pr, ?_⟩
      rw [reflowTrace_mk_eq]
      apply List.mem_cons_of_mem
      apply List.mem_append_of_mem_left
      rw [List.mem_flatten]
      exact ⟨_, List.mem_map_of_mem _ hk, hpr⟩
termination_by f => sizeOf f
decreasing_by
  have h1 := List.sizeOf_lt_of_mem hk
  simp only [Flow.mk.sizeOf_spec]
  omega

theorem insert_union_contains_both (d : RestyleDamage) :
    (d.insert (ServoRestyleDamage.REFLOW_OUT_OF_FLOW.union ServoRestyleDamage.REFLOW)).contains
        ServoRestyleDamage.REFLOW = true ∧
      (d.insert (ServoRestyleDamage.REFLOW_OUT_OF_FLOW.union ServoRestyleDamage.REFLOW)).contains
        ServoRestyleDamage.REFLOW_OUT_OF_FLOW = true := by
  cases d
  simp [RestyleDamage.insert, RestyleDamage.union, RestyleDamage.contains,
    ServoRestyleDamage.REFLOW, ServoRestyleDamage.REFLOW_OUT_OF_FLOW]

/-- **C1**: within the fused main traversal of `reflow` (its inner `doit`), a
node's inline-size assignment — performed when its damage requires it — occurs
before any strict descendant's inline-size assignment, and a node's block-size
assignment occurs only after the block-size assignments of all its
descendants: pre-order for inline sizes, post-order for block sizes, in one
recursion. -/
theorem reflow_inline_preorder_block_postorder
    (assign_inline_sizes assign_block_sizes : SizeTraversal) (relayout_mode : RelayoutMode)
    (root p c : Flow) (hnd : root.ids.Nodup)
    (hp : p ∈ root.subflows) (hc : c ∈ subflowsList p.childrenOf) :
    ListBefore (fun e => e.isInlineAssign p.idOf) (fun e => e.isInlineAssign c.idOf)
        (reflowTrace assign_inline_sizes assign_block_sizes relayout_mode root) ∧
      ListBefore (fun e => e.isBlockAssign c.idOf) (fun e => e.isBlockAssign p.idOf)
        (reflowTrace assign_inline_sizes assign_block_sizes relayout_mode root) :=
  reflow_order_aux assign_inline_sizes assign_block_sizes relayout_mode root hnd p hp c hc

/-- **C2**: when `reflow`'s traversal runs with `RelayoutMode::Force`, every
node of the subtree has both `REFLOW_OUT_OF_FLOW` and `REFLOW` inserted into
its restyle damage, and the insertion happens before the node's own
inline-size-assignment check is evaluated: the damage read by that check is
the node's damage with both bits inserted. -/
theorem reflow_force_inserts_damage_before_inline_check
    (assign_inline_sizes assign_block_sizes : SizeTraversal) (root n : Flow)
    (hn : n ∈ root.subflows) :
    ∃ pr,
      ReflowEvent.inline_size_check n.idOf
          (n.baseOf.restyle_damage.insert
            (ServoRestyleDamage.REFLOW_OUT_OF_FLOW.union ServoRestyleDamage.REFLOW)) pr
        ∈ reflowTrace assign_inline_sizes assign_block_sizes RelayoutMode.Force root ∧
      (n.baseOf.restyle_damage.insert
          (ServoRestyleDamage.REFLOW_OUT_OF_FLOW.union ServoRestyleDamage.REFLOW)).contains
        ServoRestyleDamage.REFLOW = true ∧
      (n.baseOf.restyle_damage.insert
          (ServoRestyleDamage.REFLOW_OUT_OF_FLOW.union ServoRestyleDamage.REFLOW)).contains
        ServoRestyleDamage.REFLOW_OUT_OF_FLOW = true := by
  rcases forced_trace_inline_damage assign_inline_sizes assign_block_sizes root n hn
    with ⟨pr, hpr⟩
  exact ⟨pr, hpr, (insert_union_contains_both _).1, (insert_union_contains_both _).2⟩

/-! ## Witness fixtures: a concrete two-node tree and traversal callbacks -/

/-- A sample base record with all damage bits set. -/
def sampleBase : BaseFlow :=
  ⟨⟨true, true, true⟩, ⟨false⟩, ⟨0, 0⟩, ⟨0, 0⟩, ⟨0, 0⟩, ⟨⟨0, 0⟩, ⟨0, 0⟩⟩⟩

/-- A sample leaf flow. -/
def sampleChild : Flow := .mk 1 sampleBase none []

/-- A sample root flow with one child. -/
def sampleRoot : Flow := .mk 0 sampleBase none [sampleChild]

/-- A sample size traversal: process exactly when reflow damage is present. -/
def sampleTraversal : SizeTraversal :=
  ⟨fun b => b.restyle_damage.intersects
      (ServoRestyleDamage.REFLOW_OUT_OF_FLOW.union ServoRestyleDamage.REFLOW),
    fun b => b⟩

theorem sampleRoot_ids_nodup : sampleRoot.ids.Nodup := by
  rw [show sampleRoot = Flow.mk 0 sampleBase none [sampleChild] from rfl, ids_mk]
  simp only [List.map_cons, List.map_nil, List.flatten_cons, List.flatten_nil]
  rw [show sampleChild = Flow.mk 1 sampleBase none [] from rfl, ids_mk]
  simp

theorem sampleChild_mem : sampleChild ∈ subflowsList sampleRoot.childrenOf := by
  rw [show sampleRoot.childrenOf = [sampleChild] from rfl]
  exact mem_subflowsList.mpr ⟨sampleChild, List.mem_cons_self _ _, self_mem_subflows _⟩

theorem reflow_inline_preorder_block_postorder_witness :
    (sampleRoot.ids.Nodup ∧ sampleRoot ∈ sampleRoot.subflows ∧
        sampleChild ∈ subflowsList sampleRoot.childrenOf) ∧
      (ListBefore (fun e => e.isInlineAssign sampleRoot.idOf)
          (fun e => e.isInlineAssign sampleChild.idOf)
          (reflowTrace sampleTraversal sampleTraversal RelayoutMode.Incremental sampleRoot) ∧
        ListBefore (fun e => e.isBlockAssign sampleChild.idOf)
          (fun e => e.isBlockAssign sampleRoot.idOf)
          (reflowTrace sampleTraversal sampleTraversal RelayoutMode.Incremental sampleRoot)) :=
  ⟨⟨sampleRoot_ids_nodup, self_mem_subflows _, sampleChild_mem⟩,
    reflow_inline_preorder_block_postorder sampleTraversal sampleTraversal
      RelayoutMode.Incremental sampleRoot sampleRoot sampleChild
      sampleRoot_ids_nodup (self_mem_subflows _) sampleChild_mem⟩

theorem reflow_force_inserts_damage_before_inline_check_witness :
    sampleChild ∈ sampleRoot.subflows ∧
      ∃ pr,
        ReflowEvent.inline_size_check sampleChild.idOf
            (sampleChild.baseOf.restyle_damage.insert
              (ServoRestyleDamage.REFLOW_OUT_OF_FLOW.union ServoRestyleDamage.REFLOW)) pr
          ∈ reflowTrace sampleTraversal sampleTraversal RelayoutMode.Force sampleRoot ∧
        (sampleChild.baseOf.restyle_damage.insert
            (ServoRestyleDamage.REFLOW_OUT_OF_FLOW.union ServoRestyleDamage.REFLOW)).contains
          ServoRestyleDamage.REFLOW = true ∧
        (sampleChild.baseOf.restyle_damage.insert
            (ServoRestyleDamage.REFLOW_OUT_OF_FLOW.union ServoRestyleDamage.REFLOW)).contains
          ServoRestyleDamage.REFLOW_OUT_OF_FLOW = true :=
  ⟨mem_subflows_of_mem_children_subflows sampleChild_mem,
    reflow_force_inserts_damage_before_inline_check sampleTraversal sampleTraversal
      sampleRoot sampleChild (mem_subflows_of_mem_children_subflows sampleChild_mem)⟩

/-! ## Overflow propagation (`store_overflow`)

The per-flow overflow computation (the virtual `Flow::store_overflow`, which
unions the node's own geometry with its children's overflow and stores the
result) lives outside the embedded file; its effect on the node's `overflow`
field is taken as the parameter `overflow_step`, evaluated — as in the source
— on the node after its children have been processed. -/

mutual

/-- `store_overflow`: return immediately unless the node's damage carries
`STORE_OVERFLOW`; otherwise recurse into every child, compute this node's
overflow, then clear the bit. -/
def store_overflow (overflow_step : Flow → AuRect) : Flow → Flow
  | .mk i b bl cs =>
    if !(b.restyle_damage.contains ServoRestyleDamage.STORE_OVERFLOW) then
      .mk i b bl cs
    else
      let cs' := storeOverflowList overflow_step cs
      let computed := overflow_step (Flow.mk i b bl cs')
      let b' : BaseFlow := { b with overflow := computed }
      Flow.mk i
        { b' with restyle_damage := b'.restyle_damage.remove ServoRestyleDamage.STORE_OVERFLOW }
        bl cs'

/-- The child loop of `store_overflow`. -/
def storeOverflowList (overflow_step : Flow → AuRect) : List Flow → List Flow
  | [] => []
  | k :: ks => store_overflow overflow_step k :: storeOverflowList overflow_step ks

end

theorem remove_store_overflow_not_contains (d : RestyleDamage) :
    (d.remove ServoRestyleDamage.STORE_OVERFLOW).contains
      ServoRestyleDamage.STORE_OVERFLOW = false := by
  cases d
  simp [RestyleDamage.remove, RestyleDamage.contains, ServoRestyleDamage.STORE_OVERFLOW]

/-- **C5**: on a node whose damage does not carry `STORE_OVERFLOW`,
`store_overflow` returns immediately: no descendant is visited and no state
anywhere in the subtree is modified — the result is the input tree, even when
descendants carry the bit. -/
theorem store_overflow_skip (overflow_step : Flow → AuRect) (f : Flow)
    (h : f.baseOf.restyle_damage.contains ServoRestyleDamage.STORE_OVERFLOW = false) :
    store_overflow overflow_step f = f := by
  cases f with
  | mk i b bl cs =>
    have hb : b.restyle_damage.contains ServoRestyleDamage.STORE_OVERFLOW = false := by
      simpa [Flow.baseOf] using h
    simp [store_overflow, hb]

/-- After a run of `store_overflow`, the root's `STORE_OVERFLOW` bit is
clear (it was either already clear or has just been removed). -/
theorem store_overflow_clears (overflow_step : Flow → AuRect) (f : Flow) :
    (store_overflow overflow_step f).baseOf.restyle_damage.contains
      ServoRestyleDamage.STORE_OVERFLOW = false := by
  cases f with
  | mk i b bl cs =>
    cases hb : b.restyle_damage.contains ServoRestyleDamage.STORE_OVERFLOW with
    | false => simp [store_overflow, hb, Flow.baseOf]
    | true => simp [store_overflow, hb, Flow.baseOf, remove_store_overflow_not_contains]

/-- **C4**: `store_overflow` run twice in succession with no intervening
damage is a no-op the second time: the first run cleared the root's
`STORE_OVERFLOW` bit (when it was set at all), so the second run returns
immediately and changes nothing. -/
theorem store_overflow_idempotent (overflow_step : Flow → AuRect) (f : Flow) :
    store_overflow overflow_step (store_overflow overflow_step f) =
      store_overflow overflow_step f :=
  store_overflow_skip overflow_step _ (store_overflow_clears overflow_step f)

/-- A sample overflow computation for witnesses. -/
def sampleOverflowStep : Flow → AuRect := fun _ => ⟨⟨0, 0⟩, ⟨0, 0⟩⟩

/-- A base record with no damage at all and a stale
`speculated_float_placement_out`. -/
def cleanBase : BaseFlow :=
  ⟨⟨false, false, false⟩, ⟨false⟩, ⟨0, 0⟩, ⟨0, 0⟩, ⟨5, 7⟩, ⟨⟨0, 0⟩, ⟨0, 0⟩⟩⟩

/-- A damage-free root over a child that still carries all damage bits. -/
def sampleCleanRoot : Flow := .mk 4 cleanBase none [sampleChild]

theorem store_overflow_skip_witness :
    sampleCleanRoot.baseOf.restyle_damage.contains ServoRestyleDamage.STORE_OVERFLOW = false ∧
      store_overflow sampleOverflowStep sampleCleanRoot = sampleCleanRoot :=
  ⟨by decide, store_overflow_skip sampleOverflowStep sampleCleanRoot (by decide)⟩

/-! ## Float-placement speculation (`guess_float_placement`)

The `SpeculatedFloatPlacement` arithmetic (`compute_floats_in_for_first_child`,
`compute_floats_in`, `compute_floats_out`, from `crate::floats`) lives outside
the embedded file and is taken as parameters. -/

/-- The float-placement arithmetic of `crate::floats`, as parameters. -/
structure FloatOps where
  compute_floats_in_for_first_child : Flow → SpeculatedFloatPlacement
  compute_floats_in : SpeculatedFloatPlacement → Flow → SpeculatedFloatPlacement
  compute_floats_out : SpeculatedFloatPlacement → Flow → SpeculatedFloatPlacement

mutual

/-- A termination measure for the float traversal: node count, insensitive to
base-record rewrites. -/
def flowWeight : Flow → Nat
  | .mk _ _ _ cs => 1 + flowWeightList cs

/-- Summed weight of a list of flows (counting each cons). -/
def flowWeightList : List Flow → Nat
  | [] => 0
  | k :: ks => 1 + flowWeight k + flowWeightList ks

end

theorem flowWeight_withBase (f : Flow) (b : BaseFlow) :
    flowWeight (f.withBase b) = flowWeight f := by
  cases f with
  | mk i b0 bl cs => simp [Flow.withBase, flowWeight]

mutual

/-- `guess_float_placement`: skip entirely unless the node carries `REFLOW`
damage; otherwise thread the speculated float placement through the children
(skipping absolutely positioned ones) and fold the result into the node's
outgoing placement. -/
def guess_float_placement (ops : FloatOps) : Flow → Flow
  | .mk i b bl cs =>
    if !(b.restyle_damage.intersects ServoRestyleDamage.REFLOW) then
      .mk i b bl cs
    else
      let r := guessFloatKids ops
        (ops.compute_floats_in_for_first_child (.mk i b bl cs)) cs
      let floats_out := ops.compute_floats_out r.1 (Flow.mk i b bl r.2)
      Flow.mk i { b with speculated_float_placement_out := floats_out } bl r.2
termination_by f => flowWeight f
decreasing_by
  all_goals simp only [flowWeight, flowWeightList, flowWeight_withBase]
  all_goals omega

/-- The child loop of `guess_float_placement`: an absolutely positioned child
is recursed into but floats do not flow through it; a normal-flow child has
the accumulated `floats_in` computed into it and written to its
`speculated_float_placement_in`, is recursed into, and hands its
`speculated_float_placement_out` to the next sibling. -/
def guessFloatKids (ops : FloatOps) :
    SpeculatedFloatPlacement → List Flow → SpeculatedFloatPlacement × List Flow
  | floats_in, [] => (floats_in, [])
  | floats_in, k :: ks =>
    if k.baseOf.flags.is_absolutely_positioned then
      let k' := guess_float_placement ops k
      let r := guessFloatKids ops floats_in ks
      (r.1, k' :: r.2)
    else
      let floats_in' := ops.compute_floats_in floats_in k
      let k1 := k.withBase { k.baseOf with speculated_float_placement_in := floats_in' }
      let k' := guess_float_placement ops k1
      let r := guessFloatKids ops k'.baseOf.speculated_float_placement_out ks
      (r.1, k' :: r.2)
termination_by _ ks => flowWeightList ks
decreasing_by
  all_goals simp only [flowWeight, flowWeightList, flowWeight_withBase]
  all_goals omega

end

theorem guessFloatKids_append (ops : FloatOps) (floats_in : SpeculatedFloatPlacement)
    (l1 l2 : List Flow) :
    guessFloatKids ops floats_in (l1 ++ l2) =
      ((guessFloatKids ops (guessFloatKids ops floats_in l1).1 l2).1,
        (guessFloatKids ops floats_in l1).2 ++
          (guessFloatKids ops (guessFloatKids ops floats_in l1).1 l2).2) := by
  induction l1 generalizing floats_in with
  | nil => simp [guessFloatKids]
  | cons k ks ih =>
    by_cases h : k.baseOf.flags.is_absolutely_positioned
    · simp [guessFloatKids, h, ih]
    · simp [guessFloatKids, h, ih]

/-- `guess_float_placement` is a no-op on a node without `REFLOW` damage. -/
theorem guess_float_placement_skip (ops : FloatOps) (f : Flow)
    (h : f.baseOf.restyle_damage.intersects ServoRestyleDamage.REFLOW = false) :
    guess_float_placement ops f = f := by
  cases f with
  | mk i b bl cs =>
    have hb : b.restyle_damage.intersects ServoRestyleDamage.REFLOW = false := by
      simpa [Flow.baseOf] using h
    simp [guess_float_placement, hb]

/-- **C6**: an absolutely positioned child is excluded from the sibling float
chain — the chain's outgoing `floats_in` is identical whether or not the
absolutely positioned sibling is interposed — while the child is still
recursed into (it appears in the output, traversed, between its siblings). -/
theorem guess_float_abs_excluded (ops : FloatOps) (floats_in : SpeculatedFloatPlacement)
    (l1 l2 : List Flow) (a : Flow)
    (ha : a.baseOf.flags.is_absolutely_positioned = true) :
    (guessFloatKids ops floats_in (l1 ++ a :: l2)).1 =
        (guessFloatKids ops floats_in (l1 ++ l2)).1 ∧
      (guessFloatKids ops floats_in (l1 ++ a :: l2)).2 =
        (guessFloatKids ops floats_in l1).2 ++
          guess_float_placement ops a ::
            (guessFloatKids ops (guessFloatKids ops floats_in l1).1 l2).2 := by
  have h1 := guessFloatKids_append ops floats_in l1 (a :: l2)
  have h2 := guessFloatKids_append ops floats_in l1 l2
  constructor
  · rw [h1, h2]
    simp [guessFloatKids, ha]
  · rw [h1]
    simp [guessFloatKids, ha]

/-- **C9**: a normal-flow child without `REFLOW` damage still has its
`speculated_float_placement_in` overwritten with the accumulated `floats_in`;
its recursion returns without recomputing anything; and its previously stored
(stale) `speculated_float_placement_out` is read and threaded to the next
sibling. -/
theorem guess_float_stale_out_threaded (ops : FloatOps)
    (floats_in : SpeculatedFloatPlacement) (k : Flow) (ks : List Flow)
    (habs : k.baseOf.flags.is_absolutely_positioned = false)
    (hre : k.baseOf.restyle_damage.intersects ServoRestyleDamage.REFLOW = false) :
    guessFloatKids ops floats_in (k :: ks) =
      ((guessFloatKids ops k.baseOf.speculated_float_placement_out ks).1,
        k.withBase { k.baseOf with
            speculated_float_placement_in := ops.compute_floats_in floats_in k } ::
          (guessFloatKids ops k.baseOf.speculated_float_placement_out ks).2) := by
  cases k with
  | mk i b bl cs =>
    have hb : b.flags.is_absolutely_positioned = false := by
      simpa [Flow.baseOf] using habs
    have hd : b.restyle_damage.intersects ServoRestyleDamage.REFLOW = false := by
      simpa [Flow.baseOf] using hre
    have hskip := guess_float_placement_skip ops
      (Flow.mk i
        { b with speculated_float_placement_in :=
            ops.compute_floats_in floats_in (Flow.mk i b bl cs) } bl cs)
      (by simpa [Flow.baseOf] using hd)
    simp [guessFloatKids, hb, Flow.withBase, Flow.baseOf, hskip]

/-- Sample float arithmetic for witnesses. -/
def sampleFloatOps : FloatOps :=
  ⟨fun _ => ⟨0, 0⟩, fun s _ => ⟨s.left + 1, s.right⟩, fun s _ => s⟩

/-- A base record marking an absolutely positioned flow with reflow damage. -/
def absBase : BaseFlow :=
  ⟨⟨true, false, false⟩, ⟨true⟩, ⟨0, 0⟩, ⟨0, 0⟩, ⟨0, 0⟩, ⟨⟨0, 0⟩, ⟨0, 0⟩⟩⟩

/-- A sample absolutely positioned leaf. -/
def sampleAbsChild : Flow := .mk 2 absBase none []

/-- A sample damage-free normal-flow leaf (stale float placement ⟨5, 7⟩). -/
def sampleCleanChild : Flow := .mk 3 cleanBase none []

theorem guess_float_abs_excluded_witness :
    sampleAbsChild.baseOf.flags.is_absolutely_positioned = true ∧
      ((guessFloatKids sampleFloatOps ⟨0, 0⟩ ([sampleChild] ++ sampleAbsChild :: [])).1 =
          (guessFloatKids sampleFloatOps ⟨0, 0⟩ ([sampleChild] ++ [])).1 ∧
        (guessFloatKids sampleFloatOps ⟨0, 0⟩ ([sampleChild] ++ sampleAbsChild :: [])).2 =
          (guessFloatKids sampleFloatOps ⟨0, 0⟩ [sampleChild]).2 ++
            guess_float_placement sampleFloatOps sampleAbsChild ::
              (guessFloatKids sampleFloatOps
                (guessFloatKids sampleFloatOps ⟨0, 0⟩ [sampleChild]).1 []).2) :=
  ⟨by decide,
    guess_float_abs_excluded sampleFloatOps ⟨0, 0⟩ [sampleChild] [] sampleAbsChild (by decide)⟩

theorem guess_float_stale_out_threaded_witness :
    (sampleCleanChild.baseOf.flags.is_absolutely_positioned = false ∧
        sampleCleanChild.baseOf.restyle_damage.intersects ServoRestyleDamage.REFLOW = false) ∧
      guessFloatKids sampleFloatOps ⟨0, 0⟩ (sampleCleanChild :: []) =
        ((guessFloatKids sampleFloatOps
            sampleCleanChild.baseOf.speculated_float_placement_out []).1,
          sampleCleanChild.withBase { sampleCleanChild.baseOf with
              speculated_float_placement_in :=
                sampleFloatOps.compute_floats_in ⟨0, 0⟩ sampleCleanChild } ::
            (guessFloatKids sampleFloatOps
              sampleCleanChild.baseOf.speculated_float_placement_out []).2) :=
  ⟨⟨by decide, by decide⟩,
    guess_float_stale_out_threaded sampleFloatOps ⟨0, 0⟩ sampleCleanChild []
      (by decide) (by decide)⟩

/-! ## Display-list building (`build_display_list_for_subtree`)

The stacking-context collection pass and the `BuildDisplayList` traversal are
defined in `crate::display_list`, outside the embedded file.  The collection
pass is a parameter transforming the collection state; the build traversal is
modelled from the spec below.  The build state records display items in the
order they were added. -/

/-- The field of `LayoutContext` read by the embedded file. -/
structure LayoutContext where
  id : Nat
deriving DecidableEq, Repr

/-- `webrender_api::ColorF` (`f32` components modelled as `ℚ`). -/
structure ColorF where
  r : ℚ
  g : ℚ
  b : ℚ
  a : ℚ
deriving DecidableEq, Repr

/-- `webrender_api::PropertyBinding` over colors. -/
inductive PropertyBinding where
  | Value (color : ColorF)
  | Binding (key : Nat)
deriving DecidableEq, Repr

/-- `DisplayListSection`. -/
inductive DisplayListSection where
  | BackgroundAndBorders
  | BlockBackgroundsAndBorders
  | Content
  | Outlines
deriving DecidableEq, Repr

/-- The arguments of `create_base_display_item`: bounds, originating node,
cursor, and section (named `display_section` here, `section` being reserved
in Lean). -/
structure BaseDisplayItem where
  bounds : AuRect
  node : Nat
  cursor : Option Nat
  display_section : DisplayListSection
deriving DecidableEq, Repr

/-- `webrender_api::CommonItemProperties` (its contents are irrelevant to the
embedded claims). -/
structure CommonItemProperties where
deriving DecidableEq, Repr

/-- `items::empty_common_item_properties()`. -/
def empty_common_item_properties : CommonItemProperties := ⟨⟩

/-- `webrender_api::RectangleDisplayItem`. -/
structure RectangleDisplayItem where
  color : PropertyBinding
  common : CommonItemProperties
  bounds : QRect
deriving DecidableEq, Repr

/-- `CommonDisplayItem::new(base, item)`, specialised to rectangles. -/
structure CommonDisplayItem where
  base : BaseDisplayItem
  item : RectangleDisplayItem
deriving DecidableEq, Repr

/-- A display item: the rectangle variant built by the embedded file, plus a
stand-in for the remaining variants emitted by the build traversal. -/
inductive DisplayItem where
  | Rectangle (item : CommonDisplayItem)
  | Other (tag : Nat)
deriving DecidableEq, Repr

/-- `StackingContextCollectionState::new(layout_context.id)`; the real state's
stacking-context tree is irrelevant to the embedded claims. -/
structure StackingContextCollectionState where
  layout_id : Nat
deriving DecidableEq, Repr

/-- `StackingContextCollectionState::new`. -/
def StackingContextCollectionState.new (id : Nat) : StackingContextCollectionState := ⟨id⟩

/-- `DisplayListBuildState`, with its display items in order of addition. -/
structure DisplayListBuildState where
  layout_id : Nat
  items : List DisplayItem
deriving DecidableEq, Repr

/-- `DisplayListBuildState::new(layout_context, state)`: no items yet. -/
def DisplayListBuildState.new (_layout_context : LayoutContext)
    (state : StackingContextCollectionState) : DisplayListBuildState :=
  ⟨state.layout_id, []⟩

/-- `DisplayListBuildState::create_base_display_item`. -/
def DisplayListBuildState.create_base_display_item (_ : DisplayListBuildState)
    (bounds : AuRect) (node : Nat) (cursor : Option Nat)
    (display_section : DisplayListSection) : BaseDisplayItem :=
  ⟨bounds, node, cursor, display_section⟩

/-- `DisplayListBuildState::add_display_item`: record the item as added. -/
def DisplayListBuildState.add_display_item (s : DisplayListBuildState)
    (item : DisplayItem) : DisplayListBuildState :=
  ⟨s.layout_id, s.items ++ [item]⟩

/-- Modelled from the spec: the `BuildDisplayList` traversal (phase 2 of
`build_display_list_for_subtree`, from `crate::traversal`) walks the tree in
stacking-context order "emitting each node's display items", appending them to
the build state; the items it emits are the parameter `emit_display_items`. -/
def buildDisplayListTraverse (emit_display_items : Flow → List DisplayItem)
    (flow_root : Flow) (state : DisplayListBuildState) : DisplayListBuildState :=
  ⟨state.layout_id, state.items ++ emit_display_items flow_root⟩

/-- `build_display_list_for_subtree`: collect stacking contexts, start a fresh
build state, add the page-background rectangle, then run the build traversal.
`collect_stacking_contexts` stands for the `Flow::collect_stacking_contexts`
method (outside the embedded file).  The `as_block()` downcast on a non-block
root panics in the source; the panic is modelled by `none`. -/
def build_display_list_for_subtree
    (collect_stacking_contexts :
      Flow → StackingContextCollectionState → StackingContextCollectionState)
    (emit_display_items : Flow → List DisplayItem)
    (layout_context : LayoutContext) (background_color : ColorF) (client_size : AuSize)
    (flow_root : Flow) : Option DisplayListBuildState :=
  let state0 := collect_stacking_contexts flow_root
    (StackingContextCollectionState.new layout_context.id)
  let state := DisplayListBuildState.new layout_context state0
  match flow_root.as_block with
  | none => none
  | some block =>
    let bounds : AuRect := ⟨⟨0, 0⟩, client_size⟩
    let base := state.create_base_display_item bounds block.fragment.node none
      DisplayListSection.BackgroundAndBorders
    let state := state.add_display_item (DisplayItem.Rectangle
      ⟨base, ⟨PropertyBinding.Value background_color, empty_common_item_properties,
        bounds.to_layout⟩⟩)
    some (buildDisplayListTraverse emit_display_items flow_root state)

/-- **C3**: for every `build_display_list_for_subtree` call with client size
`(W, H)` and background color `C` on a block root, the first display item
added to the build state is a rectangle with bounds at origin `(0, 0)` and
size `(W, H)`, filled with `C`, in the `BackgroundAndBorders` section, tagged
with the root block's fragment node. -/
theorem build_display_list_first_item
    (collect_stacking_contexts :
      Flow → StackingContextCollectionState → StackingContextCollectionState)
    (emit_display_items : Flow → List DisplayItem)
    (layout_context : LayoutContext) (background_color : ColorF) (client_size : AuSize)
    (flow_root : Flow) (block : BlockFlow)
    (hroot : flow_root.as_block = some block) :
    ∃ st, build_display_list_for_subtree collect_stacking_contexts emit_display_items
        layout_context background_color client_size flow_root = some st ∧
      st.items.head? = some (DisplayItem.Rectangle
        ⟨⟨⟨⟨0, 0⟩, client_size⟩, block.fragment.node, none,
            DisplayListSection.BackgroundAndBorders⟩,
          ⟨PropertyBinding.Value background_color, empty_common_item_properties,
            AuRect.to_layout ⟨⟨0, 0⟩, client_size⟩⟩⟩) := by
  unfold build_display_list_for_subtree
  rw [hroot]
  refine ⟨_, rfl, ?_⟩
  simp [buildDisplayListTraverse, DisplayListBuildState.add_display_item,
    DisplayListBuildState.new, DisplayListBuildState.create_base_display_item]

/-- **C10**: `build_display_list_for_subtree` requires a block root: it
succeeds exactly when `as_block()` does, so calling it with a non-block root
is a precondition violation (the modelled panic), not a handled case. -/
theorem build_display_list_requires_block_root
    (collect_stacking_contexts :
      Flow → StackingContextCollectionState → StackingContextCollectionState)
    (emit_display_items : Flow → List DisplayItem)
    (layout_context : LayoutContext) (background_color : ColorF) (client_size : AuSize)
    (flow_root : Flow) :
    (build_display_list_for_subtree collect_stacking_contexts emit_display_items
        layout_context background_color client_size flow_root).isSome =
      flow_root.as_block.isSome := by
  cases h : flow_root.as_block with
  | none => simp [build_display_list_for_subtree, h]
  | some block => simp [build_display_list_for_subtree, h]

/-- A sample block payload (fragment node 9, margin 3, no stacking context,
no transform). -/
def sampleBlock : BlockFlow := ⟨⟨9, 3, false, none⟩⟩

/-- A sample block root flow. -/
def sampleBlockRoot : Flow := .mk 5 sampleBase (some sampleBlock) []

/-- A sample stacking-context collection pass. -/
def sampleCollect : Flow → StackingContextCollectionState → StackingContextCollectionState :=
  fun _ s => s

/-- A sample display-item emission for the build traversal. -/
def sampleEmit : Flow → List DisplayItem := fun _ => [DisplayItem.Other 0]

theorem build_display_list_first_item_witness :
    sampleBlockRoot.as_block = some sampleBlock ∧
      ∃ st, build_display_list_for_subtree sampleCollect sampleEmit ⟨0⟩ ⟨1, 0, 0, 1⟩
          ⟨600, 400⟩ sampleBlockRoot = some st ∧
        st.items.head? = some (DisplayItem.Rectangle
          ⟨⟨⟨⟨0, 0⟩, ⟨600, 400⟩⟩, sampleBlock.fragment.node, none,
              DisplayListSection.BackgroundAndBorders⟩,
            ⟨PropertyBinding.Value ⟨1, 0, 0, 1⟩, empty_common_item_properties,
              AuRect.to_layout ⟨⟨0, 0⟩, ⟨600, 400⟩⟩⟩⟩) :=
  ⟨rfl, build_display_list_first_item sampleCollect sampleEmit ⟨0⟩ ⟨1, 0, 0, 1⟩
    ⟨600, 400⟩ sampleBlockRoot sampleBlock rfl⟩

/-! ## Border-box iteration (`iterate_through_flow_tree_fragment_border_boxes`)

The traversal is instrumented through its visitor: each node contributes one
visit record carrying the `level` and `stacking_context_position` with which
`iterate_through_fragment_border_boxes` was invoked on it. -/

/-- One visitor callback: the node, the recursion level, and the
stacking-context-relative position it was visited with. -/
structure Visit where
  id : Nat
  level : Int
  stacking_context_position : AuPoint
deriving DecidableEq, Repr

/-- The stacking-context position with which the child loop of the iteration's
inner `doit` enters `kid`: recomputed — inline-start margin plus
stacking-relative position plus current offset, plus, under an active 2D
transform, the transformed origin converted to app units — only when `kid` is
a block flow establishing a stacking context; otherwise the parent's position,
unchanged.  The source `unwrap`s the transformed origin (a panic when the
projective divide fails); the panic case is modelled by `getD` and excluded by
hypothesis where it matters. -/
def childStackingContextPosition (kid : Flow) (stacking_context_position : AuPoint) :
    AuPoint :=
  match kid.as_block with
  | none => stacking_context_position
  | some block =>
    if block.fragment.establishes_stacking_context then
      let recomputed := AuPoint.mk block.fragment.margin_inline_start 0 +
        kid.baseOf.stacking_relative_position + stacking_context_position
      match block.fragment.transform_matrix with
      | some matrix =>
        let transform_matrix := (matrix.transform_point2d QPoint.zero).getD QPoint.zero
        recomputed + AuPoint.mk (Au.from_f32_px transform_matrix.x)
          (Au.from_f32_px transform_matrix.y)
      | none => recomputed
    else stacking_context_position

mutual

/-- The inner `doit` of the border-box iteration: visit the node's fragments,
then each child with its (possibly recomputed) stacking-context position. -/
def iterate_doit : Flow → Int → AuPoint → List Visit
  | .mk i _ _ cs, level, stacking_context_position =>
    ⟨i, level, stacking_context_position⟩ :: iterateList cs level stacking_context_position

/-- The child loop of the border-box iteration. -/
def iterateList : List Flow → Int → AuPoint → List Visit
  | [], _, _ => []
  | k :: ks, level, stacking_context_position =>
    iterate_doit k (level + 1) (childStackingContextPosition k stacking_context_position) ++
      iterateList ks level stacking_context_position

end

/-- `iterate_through_flow_tree_fragment_border_boxes`: start at the root,
level 0, origin. -/
def iterate_through_flow_tree_fragment_border_boxes (root : Flow) : List Visit :=
  iterate_doit root 0 AuPoint.zero

theorem iterate_doit_mk (i : Nat) (b : BaseFlow) (bl : Option BlockFlow) (cs : List Flow)
    (lvl : Int) (pos : AuPoint) :
    iterate_doit (.mk i b bl cs) lvl pos = ⟨i, lvl, pos⟩ :: iterateList cs lvl pos := by
  simp [iterate_doit]

theorem iterateList_eq (cs : List Flow) (lvl : Int) (pos : AuPoint) :
    iterateList cs lvl pos =
      (cs.map fun k =>
        iterate_doit k (lvl + 1) (childStackingContextPosition k pos)).flatten := by
  induction cs with
  | nil => simp [iterateList]
  | cons k ks ih => simp [iterateList, ih]

/-- Every visit of a subtree's iteration belongs to a node of that subtree. -/
theorem iterate_vid_mem :
    ∀ (f : Flow) (lvl : Int) (pos : AuPoint), ∀ v ∈ iterate_doit f lvl pos, v.id ∈ f.ids
  | .mk i _ _ cs => by
    intro lvl pos v hv
    rw [iterate_doit_mk] at hv
    rw [ids_mk]
    rcases List.mem_cons.mp hv with rfl | hv
    · simp
    · rw [iterateList_eq] at hv
      rcases List.mem_flatten.mp hv with ⟨t, ht, hvt⟩
      rcases List.mem_map.mp ht with ⟨k, hk, rfl⟩
      have hrec := iterate_vid_mem k (lvl + 1) (childStackingContextPosition k pos) v hvt
      exact List.mem_cons_of_mem _ (mem_ids_of_child hk hrec)
termination_by f => sizeOf f
decreasing_by
  have h1 := List.sizeOf_lt_of_mem hk
  simp only [Flow.mk.sizeOf_spec]
  omega

/-- Under unique identity tags, a visit carrying the root's tag is the root's
own visit: entry level and entry position. -/
theorem iterate_self_visit {f : Flow} {lvl : Int} {pos : AuPoint} {v : Visit}
    (hnd : f.ids.Nodup) (hv : v ∈ iterate_doit f lvl pos) (hid : v.id = f.idOf) :
    v = ⟨f.idOf, lvl, pos⟩ := by
  cases f with
  | mk i _b _bl cs =>
    obtain ⟨hhead, _, _⟩ := nodup_ids_decomp hnd
    rw [iterate_doit_mk] at hv
    rcases List.mem_cons.mp hv with rfl | hv
    · rfl
    · exfalso
      rw [iterateList_eq] at hv
      rcases List.mem_flatten.mp hv with ⟨t, ht, hvt⟩
      rcases List.mem_map.mp ht with ⟨k, hk, rfl⟩
      have hvm := iterate_vid_mem k (lvl + 1) (childStackingContextPosition k pos) v hvt
      rw [hid] at hvm
      simp only [Flow.idOf] at hvm
      exact hhead (mem_ids_of_child hk hvm)

/-- Core positional invariant of the border-box iteration: a child is always
visited one level deeper than its parent, with exactly the stacking-context
position computed by the child loop from the parent's position. -/
theorem iterate_parent_child_aux :
    ∀ (f : Flow) (lvl : Int) (pos : AuPoint), f.ids.Nodup →
      ∀ p ∈ f.subflows, ∀ c ∈ p.childrenOf,
        ∀ (lp lc : Int) (qp qc : AuPoint),
          (⟨p.idOf, lp, qp⟩ : Visit) ∈ iterate_doit f lvl pos →
          (⟨c.idOf, lc, qc⟩ : Visit) ∈ iterate_doit f lvl pos →
          qc = childStackingContextPosition c qp ∧ lc = lp + 1
  | .mk i b bl cs => by
    intro lvl pos hnd p hp c hc lp lc qp qc hvp hvc
    obtain ⟨hhead, hall, hpw⟩ := nodup_ids_decomp hnd
    rw [subflows_mk] at hp
    rcases List.mem_cons.mp hp with rfl | hpf
    · have hc' : c ∈ cs := by simpa [Flow.childrenOf] using hc
      have hpeq := iterate_self_visit hnd hvp rfl
      rcases Visit.mk.injEq .. ▸ hpeq with ⟨_, hlp, hqp⟩
      have hcself : c.idOf ∈ c.ids := idOf_mem_ids (self_mem_subflows c)
      have hcid_mem : c.idOf ∈ (cs.map Flow.ids).flatten := mem_ids_of_child hc' hcself
      have hcne : c.idOf ≠ (Flow.mk i b bl cs).idOf := by
        simp only [Flow.idOf]
        exact fun h => hhead (h ▸ hcid_mem)
      rw [iterate_doit_mk] at hvc
      rcases List.mem_cons.mp hvc with heq | hvc
      · exfalso
        rcases Visit.mk.injEq .. ▸ heq with ⟨hid, _, _⟩
        exact hcne (by simpa [Flow.idOf] using hid)
      · rw [iterateList_eq] at hvc
        rcases List.mem_flatten.mp hvc with ⟨t, ht, hvt⟩
        rcases List.mem_map.mp ht with ⟨k, hk, rfl⟩
        have hidk : c.idOf ∈ k.ids := by
          have := iterate_vid_mem k (lvl + 1) (childStackingContextPosition k pos)
            ⟨c.idOf, lc, qc⟩ hvt
          simpa using this
        have hkc : k = c := child_eq_of_shared_id hpw hk hc' hidk hcself
        subst hkc
        have hceq := iterate_self_visit (hall k hk) hvt rfl
        rcases Visit.mk.injEq .. ▸ hceq with ⟨_, hlc, hqc⟩
        subst hlp hqp hlc hqc
        exact ⟨rfl, rfl⟩
    · rcases mem_subflowsList.mp hpf with ⟨k, hk, hpk⟩
      have hcsub : c ∈ p.subflows :=
        mem_subflows_of_mem_children_subflows
          (mem_subflowsList.mpr ⟨c, hc, self_mem_subflows c⟩)
      have hck : c ∈ k.subflows := subflows_trans k hcsub hpk
      have hpidk : p.idOf ∈ k.ids := idOf_mem_ids hpk
      have hcidk : c.idOf ∈ k.ids := idOf_mem_ids hck
      have hloc : ∀ v : Visit, v ∈ iterate_doit (.mk i b bl cs) lvl pos → v.id ∈ k.ids →
          v ∈ iterate_doit k (lvl + 1) (childStackingContextPosition k pos) := by
        intro v hv hvk
        rw [iterate_doit_mk] at hv
        rcases List.mem_cons.mp hv with rfl | hv
        · exact absurd (mem_ids_of_child hk hvk) hhead
        · rw [iterateList_eq] at hv
          rcases List.mem_flatten.mp hv with ⟨t, ht, hvt⟩
          rcases List.mem_map.mp ht with ⟨k1, hk1, rfl⟩
          have hv1 := iterate_vid_mem k1 (lvl + 1) (childStackingContextPosition k1 pos) v hvt
          have : k1 = k := child_eq_of_shared_id hpw hk1 hk hv1 hvk
          subst this
          exact hvt
      exact iterate_parent_child_aux k (lvl + 1) (childStackingContextPosition k pos)
        (hall k hk) p hpk c hc lp lc qp qc
        (hloc _ hvp (by simpa using hpidk)) (hloc _ hvc (by simpa using hcidk))
termination_by f => sizeOf f
decreasing_by
  have h1 := List.sizeOf_lt_of_mem hk
  simp only [Flow.mk.sizeOf_spec]
  omega

/-- Componentwise unfolding of `AuPoint` addition. -/
@[simp] theorem AuPoint.add_def (a b : AuPoint) : a + b = ⟨a.x + b.x, a.y + b.y⟩ := rfl

/-- **C8**: the running stacking-context offset is recomputed only when
descending into a block-flow child that establishes a new stacking context —
as the child's inline-start margin plus its stacking-relative position plus
the current offset (plus the transformed origin when a 2D transform is
active) — and is passed down unchanged for every other child. -/
theorem iterate_offset_recomputed_only_at_stacking_context_boundaries
    (root p c : Flow) (hnd : root.ids.Nodup) (hp : p ∈ root.subflows) (hc : c ∈ p.childrenOf)
    (lp lc : Int) (qp qc : AuPoint)
    (hvp : (⟨p.idOf, lp, qp⟩ : Visit) ∈ iterate_through_flow_tree_fragment_border_boxes root)
    (hvc : (⟨c.idOf, lc, qc⟩ : Visit) ∈ iterate_through_flow_tree_fragment_border_boxes root) :
    (qc = childStackingContextPosition c qp ∧ lc = lp + 1) ∧
      (∀ block, c.as_block = some block →
        block.fragment.establishes_stacking_context = false → qc = qp) ∧
      (c.as_block = none → qc = qp) := by
  have h := iterate_parent_child_aux root 0 AuPoint.zero hnd p hp c hc lp lc qp qc hvp hvc
  refine ⟨h, ?_, ?_⟩
  · intro block hb hest
    rw [h.1]
    simp [childStackingContextPosition, hb, hest]
  · intro hb
    rw [h.1]
    simp [childStackingContextPosition, hb]

/-- **C7**: when a stacking-context-establishing child carries an active 2D
transform, the translation folded into the descendant stacking-context offset
is exactly the transform applied to the origin point `(0, 0)` — the matrix's
effect on the origin, converted to app units — not zero and not the matrix's
effect on any other geometry. -/
theorem iterate_transform_folds_origin
    (root p c : Flow) (block : BlockFlow) (matrix : Transform3DModel)
    (origin_image : QPoint)
    (hnd : root.ids.Nodup) (hp : p ∈ root.subflows) (hc : c ∈ p.childrenOf)
    (hb : c.as_block = some block)
    (hest : block.fragment.establishes_stacking_context = true)
    (hm : block.fragment.transform_matrix = some matrix)
    (ht : matrix.transform_point2d QPoint.zero = some origin_image)
    (lp lc : Int) (qp qc : AuPoint)
    (hvp : (⟨p.idOf, lp, qp⟩ : Visit) ∈ iterate_through_flow_tree_fragment_border_boxes root)
    (hvc : (⟨c.idOf, lc, qc⟩ : Visit) ∈ iterate_through_flow_tree_fragment_border_boxes root) :
    qc = (AuPoint.mk block.fragment.margin_inline_start 0 +
        c.baseOf.stacking_relative_position + qp) +
      AuPoint.mk (Au.from_f32_px origin_image.x) (Au.from_f32_px origin_image.y) := by
  have h := iterate_parent_child_aux root 0 AuPoint.zero hnd p hp c hc lp lc qp qc hvp hvc
  rw [h.1]
  simp [childStackingContextPosition, hb, hest, hm, ht]

/-! ## Witness fixtures for the border-box iteration -/

/-- A sample transform: the identity with translation `(2, 4)` px. -/
def sampleMatrix : Transform3DModel := ⟨1, 0, 0, 0, 1, 0, 2, 4, 1⟩

/-- A block payload establishing a stacking context, margin 3, with
`sampleMatrix` active. -/
def tBlock : BlockFlow := ⟨⟨7, 3, true, some sampleMatrix⟩⟩

/-- A stacking-context-establishing block child. -/
def tChild : Flow := .mk 11 sampleBase (some tBlock) []

/-- A root whose only child is `tChild`. -/
def tRoot : Flow := .mk 10 sampleBase none [tChild]

theorem tRoot_ids_nodup : tRoot.ids.Nodup := by
  rw [show tRoot = Flow.mk 10 sampleBase none [tChild] from rfl, ids_mk]
  simp only [List.map_cons, List.map_nil, List.flatten_cons, List.flatten_nil]
  rw [show tChild = Flow.mk 11 sampleBase (some tBlock) [] from rfl, ids_mk]
  simp

theorem tChild_scp_eq : childStackingContextPosition tChild ⟨0, 0⟩ = ⟨123, 240⟩ := by
  simp only [childStackingContextPosition, tChild, tBlock, sampleMatrix, sampleBase,
    Flow.as_block, Flow.blockOf, Flow.baseOf, Transform3DModel.transform_point2d,
    QPoint.zero, Au.from_f32_px, AuPoint.add_def]
  norm_num [round_eq]

theorem tTrace_eq : iterate_through_flow_tree_fragment_border_boxes tRoot =
    [⟨10, 0, ⟨0, 0⟩⟩, ⟨11, 1, ⟨123, 240⟩⟩] := by
  rw [iterate_through_flow_tree_fragment_border_boxes,
    show tRoot = Flow.mk 10 sampleBase none [tChild] from rfl,
    show AuPoint.zero = ⟨0, 0⟩ from rfl, iterate_doit_mk, iterateList_eq]
  simp only [List.map_cons, List.map_nil, List.flatten_cons, List.flatten_nil,
    List.append_nil, tChild_scp_eq]
  rw [show tChild = Flow.mk 11 sampleBase (some tBlock) [] from rfl, iterate_doit_mk,
    iterateList_eq]
  simp

theorem tRoot_visit_mem :
    (⟨10, 0, ⟨0, 0⟩⟩ : Visit) ∈ iterate_through_flow_tree_fragment_border_boxes tRoot := by
  rw [tTrace_eq]
  simp

theorem tChild_visit_mem :
    (⟨11, 1, ⟨123, 240⟩⟩ : Visit) ∈ iterate_through_flow_tree_fragment_border_boxes tRoot := by
  rw [tTrace_eq]
  simp

theorem tChild_mem_childrenOf : tChild ∈ tRoot.childrenOf := by
  rw [show tRoot.childrenOf = [tChild] from rfl]
  exact List.mem_cons_self _ _

theorem iterate_offset_recomputed_witness :
    (tRoot.ids.Nodup ∧ tChild ∈ tRoot.childrenOf ∧
        (⟨10, 0, ⟨0, 0⟩⟩ : Visit) ∈ iterate_through_flow_tree_fragment_border_boxes tRoot ∧
        (⟨11, 1, ⟨123, 240⟩⟩ : Visit) ∈
          iterate_through_flow_tree_fragment_border_boxes tRoot) ∧
      (((⟨123, 240⟩ : AuPoint) = childStackingContextPosition tChild ⟨0, 0⟩ ∧
          (1 : Int) = 0 + 1) ∧
        (∀ block, tChild.as_block = some block →
          block.fragment.establishes_stacking_context = false →
            (⟨123, 240⟩ : AuPoint) = ⟨0, 0⟩) ∧
        (tChild.as_block = none → (⟨123, 240⟩ : AuPoint) = ⟨0, 0⟩)) :=
  ⟨⟨tRoot_ids_nodup, tChild_mem_childrenOf, tRoot_visit_mem, tChild_visit_mem⟩,
    iterate_offset_recomputed_only_at_stacking_context_boundaries tRoot tRoot tChild
      tRoot_ids_nodup (self_mem_subflows _) tChild_mem_childrenOf 0 1 ⟨0, 0⟩ ⟨123, 240⟩
      tRoot_visit_mem tChild_visit_mem⟩

theorem iterate_transform_folds_origin_witness :
    (tRoot.ids.Nodup ∧ tChild ∈ tRoot.childrenOf ∧
        tChild.as_block = some tBlock ∧
        tBlock.fragment.establishes_stacking_context = true ∧
        tBlock.fragment.transform_matrix = some sampleMatrix ∧
        sampleMatrix.transform_point2d QPoint.zero = some ⟨2, 4⟩ ∧
        (⟨10, 0, ⟨0, 0⟩⟩ : Visit) ∈ iterate_through_flow_tree_fragment_border_boxes tRoot ∧
        (⟨11, 1, ⟨123, 240⟩⟩ : Visit) ∈
          iterate_through_flow_tree_fragment_border_boxes tRoot) ∧
      (⟨123, 240⟩ : AuPoint) =
        (AuPoint.mk tBlock.fragment.margin_inline_start 0 +
            tChild.baseOf.stacking_relative_position + ⟨0, 0⟩) +
          AuPoint.mk (Au.from_f32_px (2 : ℚ)) (Au.from_f32_px (4 : ℚ)) :=
  ⟨⟨tRoot_ids_nodup, tChild_mem_childrenOf, rfl, rfl, rfl,
      by simp [sampleMatrix, Transform3DModel.transform_point2d, QPoint.zero],
      tRoot_visit_mem, tChild_visit_mem⟩,
    iterate_transform_folds_origin tRoot tRoot tChild tBlock sampleMatrix ⟨2, 4⟩
      tRoot_ids_nodup (self_mem_subflows _) tChild_mem_childrenOf rfl rfl rfl
      (by simp [sampleMatrix, Transform3DModel.transform_point2d, QPoint.zero])
      0 1 ⟨0, 0⟩ ⟨123, 240⟩ tRoot_visit_mem tChild_visit_mem⟩

end Layout
